import Mathlib

/-!
Shallow embedding of the pypi-agent documentation pipeline
(`langraph_docs.py` builds the archive / chunk / vector store;
`agent.py` serves queries and the archived documentation).
Pure Python functions become Lean functions; file writes become explicit
string results or a functional file-system map; the external libraries
(tiktoken, BeautifulSoup, the langchain splitter, the vector store) are
modelled from the specification where their code is not in the repository.
-/

namespace PypiAgent

/-- A langchain `Document`: page content plus metadata holding an optional
`source` URL (`doc.metadata.get("source", ...)`). -/
structure Document where
  page_content : String
  source : Option String
deriving DecidableEq, Inhabited

/-- Python whitespace for `str.strip()`: space, tab, newline, carriage
return, vertical tab, form feed. -/
def isPyWs (c : Char) : Bool :=
  c == ' ' || c == '\t' || c == '\n' || c == '\r' || c == '\x0b' || c == '\x0c'

/-- Embedding of `re.sub(r"\n\n+", "\n\n", content)`: scan left to right,
replace each maximal run of two or more newlines by exactly two newlines,
and continue after the replaced run. -/
def pyCollapse : List Char → List Char
  | [] => []
  | [c] => [c]
  | c1 :: c2 :: rest =>
      if c1 = '\n' ∧ c2 = '\n' then
        '\n' :: '\n' :: pyCollapse (rest.dropWhile (fun c => c == '\n'))
      else
        c1 :: pyCollapse (c2 :: rest)
termination_by l => l.length
decreasing_by
  · simp only [List.length_cons]
    have h := (List.dropWhile_suffix (l := rest) (fun c => c == '\n')).length_le
    omega
  · simp only [List.length_cons]
    omega

/-- Embedding of Python `str.strip()`: drop whitespace from both ends. -/
def pyStrip (l : List Char) : List Char :=
  (((l.dropWhile isPyWs).reverse).dropWhile isPyWs).reverse

/-- Modelled from the spec: BeautifulSoup parsing is external library code.
An HTML page is modelled by what the extractor reads off the soup: the text
of the `article.md-content__inner` region when such an element is present
(`soup.find("article", class_="md-content__inner")`), and the whole page's
visible text (`soup.text`). -/
structure HtmlDoc where
  mainContent : Option String
  fullText : String
deriving DecidableEq, Inhabited

/-- The whitespace normalization applied by `bs4_extractor`:
`re.sub(r"\n\n+", "\n\n", content).strip()`. -/
def pyNormalize (s : String) : String :=
  String.mk (pyStrip (pyCollapse s.data))

/-- Embedding of `bs4_extractor`: take the main-content region's text if the
selector matches, else the whole page text, then normalize whitespace. -/
def bs4_extractor (doc : HtmlDoc) : String :=
  let content := match doc.mainContent with
    | some t => t
    | none => doc.fullText
  pyNormalize content

/-- Extracting the whole page's visible text with the same whitespace
normalization applied (the spec's fallback behaviour, stated separately). -/
def wholePageExtract (doc : HtmlDoc) : String :=
  pyNormalize doc.fullText

/-! ## Tokenizer (`count_tokens`) -/

/-- Modelled from the spec: tiktoken's encoder tables are external. Greedy
longest-prefix-match over a vocabulary: the best (longest) vocabulary entry
matching a prefix of the remaining characters. -/
def bestMatchLen (vocab : List (List Char)) (l : List Char) : Nat :=
  vocab.foldl (fun best v => if v.isPrefixOf l then max best v.length else best) 0

/-- Modelled from the spec: tiktoken `encoder.encode` is external library
code; modelled as greedy longest-match tokenization of the character
sequence over the encoding's vocabulary, with a single-character token as
fallback, so that the tokens partition the input text. -/
def greedyEncode (vocab : List (List Char)) : List Char → List (List Char)
  | [] => []
  | c :: rest =>
      let k := max 1 (bestMatchLen vocab (c :: rest))
      (c :: rest).take k :: greedyEncode vocab ((c :: rest).drop k)
termination_by l => l.length
decreasing_by
  simp only [List.length_drop, List.length_cons]
  omega

/-- Modelled from the spec: `tiktoken.get_encoding(model)` looks up the named
encoding's vocabulary in tiktoken's registry, here an abstract map from
encoding name to vocabulary. -/
def tiktoken_get_encoding (registry : String → List (List Char)) (model : String) :
    List (List Char) :=
  registry model

/-- Embedding of `count_tokens(text, model="cl100k_base")`:
`encoder = tiktoken.get_encoding(model); return len(encoder.encode(text))`.
The result is the Python `int` returned by `len`. -/
def count_tokens (registry : String → List (List Char)) (text : String)
    (model : String) : Int :=
  ((greedyEncode (tiktoken_get_encoding registry model) text.data).length : Int)

/-! ## Archiver (`save_llm_full`) and a functional file system -/

/-- A file system as a map from path to file contents. -/
def FileSystem := String → Option String

/-- Opening a path in mode `"w"` and writing `content` replaces the file. -/
def writeFile (fs : FileSystem) (path content : String) : FileSystem :=
  fun p => if p = path then some content else fs p

/-- Reading a file returns its contents when present. -/
def readFile (fs : FileSystem) (path : String) : Option String :=
  fs path

/-- The fixed output filename of `save_llm_full`. -/
def llms_full_filename : String := "llms_full.txt"

/-- The string written for one document by the loop body of `save_llm_full`:
the four `f.write` calls for document index `i` (0-based). -/
def archiveWrites (i : Nat) (doc : Document) : String :=
  ("DOCUMENT " ++ toString (i + 1) ++ "\n")
    ++ ("SOURCE: " ++ (doc.source.getD "Unknown url") ++ "\n")
    ++ "CONTENT:\n"
    ++ doc.page_content
    ++ ("\n\n" ++ String.mk (List.replicate 80 '=') ++ "\n\n")

/-- Embedding of `save_llm_full`: the file contents produced by iterating
`for i, doc in enumerate(documents)` and appending each iteration's writes. -/
def save_llm_full (documents : List Document) : String :=
  documents.enum.foldl (fun acc p => acc ++ archiveWrites p.1 p.2) ""

/-- Running `save_llm_full` against a file system: open `llms_full.txt` in
mode `"w"` (overwriting) and write the archive. -/
def save_llm_full_run (fs : FileSystem) (documents : List Document) : FileSystem :=
  writeFile fs llms_full_filename (save_llm_full documents)

/-! ## Chunker (`split_documents`) -/

/-- A document presented to the token-aware splitter: its token sequence
(tokens drawn from an arbitrary type) and its metadata `source`. -/
structure TokenDoc where
  tokens : List Nat
  source : Option String
deriving DecidableEq, Inhabited

/-- A chunk produced by the splitter: a token window plus the parent
document's metadata, inherited unchanged. -/
structure TokenChunk where
  tokens : List Nat
  source : Option String
deriving DecidableEq, Inhabited

/-- Modelled from the spec: `RecursiveCharacterTextSplitter.from_tiktoken_encoder`
is external library code; modelled as token-window splitting: emit windows of
at most `S` tokens, consecutive windows starting `S - O` tokens apart so that
they share `O` tokens of overlap. The `max 1` guard only forces termination
outside the spec's `O < S` regime. -/
def chunksFrom (S O : Nat) (l : List Nat) : List (List Nat) :=
  if _h : l.length ≤ S then
    if l.isEmpty then [] else [l]
  else
    l.take S :: chunksFrom S O (l.drop (max 1 (S - O)))
termination_by l.length
decreasing_by
  simp only [List.length_drop]
  omega

/-- Embedding of `split_documents`: split every document with
`chunk_size=8000, chunk_overlap=500`; every chunk inherits its parent
document's metadata. -/
def split_documents (documents : List TokenDoc) : List TokenChunk :=
  documents.flatMap fun d => (chunksFrom 8000 500 d.tokens).map fun c => ⟨c, d.source⟩

/-! ## Vector store paths (`create_vectorstore` in `langraph_docs.py`,
`langgraph_query_tool` in `agent.py`) -/

/-- The path `create_vectorstore` persists the store to:
`os.getcwd() + "/sklearn_vectorstore.parquet"`. -/
def create_vectorstore_persist_path (cwd : String) : String :=
  cwd ++ "/sklearn_vectorstore.parquet"

/-- The serialization format passed by `create_vectorstore`
(`serialize="parquet"`). -/
def create_vectorstore_serialize : String := "parquet"

/-- The path `langgraph_query_tool` loads the store from:
`os.getcwd() + "/sklear_vectorestore.parquet"`. -/
def query_tool_persist_path (cwd : String) : String :=
  cwd ++ "/sklear_vectorestore.parquet"

/-- The serialization format passed by `langgraph_query_tool`
(`serializer="parquet"`). -/
def query_tool_serializer : String := "parquet"

/-! ## Query tool (`langgraph_query_tool`) -/

/-- What one invocation of `langgraph_query_tool` produces: the returned
string and the line printed to stdout. -/
structure QueryResult where
  output : String
  logged : String
deriving DecidableEq

/-- Embedding of `langgraph_query_tool`. The vector store retriever is
external; its behaviour enters as the parameter `search`, mapping a query
and the `k` of `search_kwargs={"k": ...}` to the retrieved documents. Each
call builds a fresh retriever with `k = 3`, invokes it on the query, prints
the retrieved count, and joins the numbered blocks with `"\n\n"`. -/
def langgraph_query_tool (search : String → Nat → List Document)
    (query : String) : QueryResult :=
  let relevant_docs := search query 3
  { logged := "Retrieved " ++ toString relevant_docs.length ++ " relevant documents"
    output := String.intercalate "\n\n"
      (relevant_docs.enum.map fun p =>
        "=Document " ++ toString (p.1 + 1) ++ " == \n" ++ p.2.page_content) }

/-! ## Resource read (`get_all_langgraphp_docs`) -/

/-- `PATH = Path(__file__)` in `agent.py`: the path of the `agent.py` source
file itself, in the directory `dir` holding the module. -/
def agent_PATH (dir : String) : String :=
  dir ++ "/agent.py"

/-- The path `get_all_langgraphp_docs` opens:
`doc_path = PATH / "llms_full.txt"`. -/
def get_all_docs_path (dir : String) : String :=
  agent_PATH dir ++ "/llms_full.txt"

/-- The path of the archive `save_llm_full` writes, resolved against the
working directory (Python resolves the relative name `llms_full.txt`
against the current working directory). -/
def resolved_save_path (cwd : String) : String :=
  cwd ++ "/" ++ llms_full_filename

/-- Embedding of the body of `get_all_langgraphp_docs`: the attempted file
read either yields the contents or raises with a message; the `except`
branch returns the error string instead of raising. -/
def get_all_langgraphp_docs (readResult : Except String String) : String :=
  match readResult with
  | .ok contents => contents
  | .error e => "Error reading log file: " ++ e

/-! ## Helper lemmas -/

/-- Indexing a map over an enumerated list: the block at position `i` is the
image of `(i, l[i])`. -/
lemma getD_enum_map {α β : Type _} [Inhabited α] (f : Nat × α → β) (l : List α)
    (i : Nat) (hi : i < l.length) (dB : β) :
    (l.enum.map f).getD i dB = f (i, l.getD i default) := by
  simp [List.getD_eq_getElem?_getD, List.enum, List.getElem?_enumFrom,
    List.getElem?_eq_getElem hi]

/-- Folding string concatenation from an arbitrary accumulator splits off the
accumulator. -/
lemma string_foldl_append :
    ∀ (g : List String) (acc : String),
      g.foldl (fun a s => a ++ s) acc = acc ++ g.foldl (fun a s => a ++ s) ""
  | [], acc => (String.append_empty acc).symm
  | s :: g, acc => by
      simp only [List.foldl_cons, String.empty_append]
      rw [string_foldl_append g (acc ++ s), string_foldl_append g s,
        String.append_assoc]

/-- The archive produced by `save_llm_full` is the flat concatenation of the
per-document write sequences. -/
lemma save_llm_full_eq_join (documents : List Document) :
    save_llm_full documents =
      String.join (documents.enum.map fun p => archiveWrites p.1 p.2) := by
  show documents.enum.foldl (fun acc p => acc ++ archiveWrites p.1 p.2) "" = _
  rw [String.join, List.foldl_map]

/-- Every chunk produced by the window splitter has at most `S` tokens. -/
lemma chunksFrom_sizes (S O : Nat) (l : List Nat) :
    ∀ c ∈ chunksFrom S O l, c.length ≤ S := by
  rw [chunksFrom]
  by_cases h : l.length ≤ S
  · rw [dif_pos h]
    intro c hc
    rcases l with _ | ⟨a, t⟩
    · simp at hc
    · simp at hc
      subst hc
      exact h
  · rw [dif_neg h]
    intro c hc
    rcases List.mem_cons.mp hc with rfl | hc'
    · simp only [List.length_take]
      omega
    · exact chunksFrom_sizes S O _ c hc'
termination_by l.length
decreasing_by
  simp only [List.length_drop]
  omega

/-- The leading `O` tokens of the first chunk of a splitter run are the
leading `O` tokens of the input. -/
lemma chunksFrom_head_take (S O : Nat) (hOS : O ≤ S) (m : List Nat) :
    ((chunksFrom S O m).getD 0 []).take O = m.take O := by
  rw [chunksFrom]
  by_cases h : m.length ≤ S
  · rw [dif_pos h]
    rcases m with _ | ⟨a, t⟩
    · simp
    · simp
  · rw [dif_neg h]
    simp only [List.getD_cons_zero]
    rw [List.take_take, Nat.min_eq_left hOS]

/-- Consecutive chunks of one splitter run overlap: the trailing `O` tokens
of a chunk that has a successor are the leading `O` tokens of that
successor. -/
lemma chunksFrom_overlap (S O : Nat) (hO : O < S) (l : List Nat) (i : Nat)
    (h : i + 1 < (chunksFrom S O l).length) :
    ((chunksFrom S O l).getD i []).drop (((chunksFrom S O l).getD i []).length - O)
      = ((chunksFrom S O l).getD (i + 1) []).take O := by
  rw [chunksFrom] at h ⊢
  by_cases hl : l.length ≤ S
  · rw [dif_pos hl] at h
    exfalso
    rcases l with _ | ⟨a, t⟩
    · simp at h
    · simp at h
  · rw [dif_neg hl] at h ⊢
    cases i with
    | zero =>
        simp only [List.getD_cons_zero, List.getD_cons_succ]
        have hlen : (l.take S).length = S := by
          simp only [List.length_take]
          omega
        rw [hlen, List.drop_take]
        have hsub : S - (S - O) = O := by omega
        have hmax : max 1 (S - O) = S - O := by omega
        rw [hsub, hmax]
        exact (chunksFrom_head_take S O (Nat.le_of_lt hO) _).symm
    | succ j =>
        simp only [List.getD_cons_succ]
        apply chunksFrom_overlap S O hO _ j
        simp only [List.length_cons] at h
        omega
termination_by l.length
decreasing_by
  simp only [List.length_drop]
  omega

/-- The head of a `dropWhile` result fails the predicate. -/
lemma dropWhile_head_false {α : Type _} (p : α → Bool) (l : List α) (x : α)
    (hx : (l.dropWhile p).head? = some x) : p x = false := by
  induction l with
  | nil => simp at hx
  | cons a t ih =>
      rw [List.dropWhile_cons] at hx
      by_cases h : p a
      · rw [if_pos h] at hx
        exact ih hx
      · rw [if_neg h] at hx
        simp only [List.head?_cons, Option.some.injEq] at hx
        subst hx
        simpa using h

/-- A list whose head fails the predicate is unchanged by `dropWhile`. -/
lemma dropWhile_eq_self_of_head {α : Type _} (p : α → Bool) (l : List α)
    (h : ∀ x, l.head? = some x → p x = false) : l.dropWhile p = l := by
  cases l with
  | nil => rfl
  | cons a t =>
      have ha := h a rfl
      rw [List.dropWhile_cons, if_neg (by simp [ha])]

/-- A non-empty list shares its head with any list it is a prefix of. -/
lemma head?_of_ne_nil_pre {α : Type _} {l₁ l₂ : List α} (h : l₁ <+: l₂)
    (hne : l₁ ≠ []) : l₂.head? = l₁.head? := by
  obtain ⟨t, rfl⟩ := h
  cases l₁ with
  | nil => exact absurd rfl hne
  | cons a u => rfl

/-- `pyCollapse` never changes the first character. -/
lemma pyCollapse_head? : ∀ l : List Char, (pyCollapse l).head? = l.head?
  | [] => by simp [pyCollapse]
  | [c] => by simp [pyCollapse]
  | c1 :: c2 :: rest => by
      simp only [pyCollapse]
      by_cases h : c1 = '\n' ∧ c2 = '\n'
      · rw [if_pos h]
        simp [h.1]
      · rw [if_neg h]
        rfl

/-- The collapse pass leaves no run of three or more consecutive newline
characters. -/
lemma pyCollapse_no_triple :
    ∀ l : List Char, ¬ ∃ a b, pyCollapse l = a ++ '\n' :: '\n' :: '\n' :: b
  | [] => by
      rintro ⟨a, b, h⟩
      simp only [pyCollapse] at h
      exact absurd h.symm (by simp)
  | [c] => by
      rintro ⟨a, b, h⟩
      simp only [pyCollapse] at h
      have := congrArg List.length h
      simp at this
      omega
  | c1 :: c2 :: rest => by
      rintro ⟨a, b, h⟩
      simp only [pyCollapse] at h
      by_cases hc : c1 = '\n' ∧ c2 = '\n'
      · rw [if_pos hc] at h
        have hhead : ∀ y, (pyCollapse (rest.dropWhile (fun c => c == '\n'))).head? =
            some y → y ≠ '\n' := by
          intro y hy
          rw [pyCollapse_head?] at hy
          have := dropWhile_head_false (fun c => c == '\n') rest y hy
          simpa using this
        rcases a with _ | ⟨x, _ | ⟨y, a2⟩⟩
        · simp only [List.nil_append, List.cons.injEq] at h
          exact hhead '\n' (by rw [h.2.2]; rfl) rfl
        · simp only [List.cons_append, List.nil_append, List.cons.injEq] at h
          exact hhead '\n' (by rw [h.2.2]; rfl) rfl
        · simp only [List.cons_append, List.cons.injEq] at h
          exact pyCollapse_no_triple (rest.dropWhile (fun c => c == '\n'))
            ⟨a2, b, h.2.2⟩
      · rw [if_neg hc] at h
        rcases a with _ | ⟨x, a1⟩
        · simp only [List.nil_append, List.cons.injEq] at h
          have hh := pyCollapse_head? (c2 :: rest)
          rw [h.2] at hh
          simp only [List.head?_cons, Option.some.injEq] at hh
          exact hc ⟨h.1, hh.symm⟩
        · simp only [List.cons_append, List.cons.injEq] at h
          exact pyCollapse_no_triple (c2 :: rest) ⟨a1, b, h.2⟩
termination_by l => l.length
decreasing_by
  · simp only [List.length_cons]
    have hd := (List.dropWhile_suffix (l := rest) (fun c => c == '\n')).length_le
    omega
  · simp only [List.length_cons]
    omega

/-- The strip pass leaves no leading whitespace. -/
lemma pyStrip_no_leading (l : List Char) :
    (pyStrip l).dropWhile isPyWs = pyStrip l := by
  by_cases hnil : pyStrip l = []
  · rw [hnil]
    rfl
  · apply dropWhile_eq_self_of_head
    intro x hx
    have hpre : pyStrip l <+: l.dropWhile isPyWs := by
      have hsuf := List.dropWhile_suffix (l := (l.dropWhile isPyWs).reverse) isPyWs
      have h2 := List.reverse_prefix.mpr hsuf
      rwa [List.reverse_reverse] at h2
    have hh := head?_of_ne_nil_pre hpre hnil
    exact dropWhile_head_false isPyWs l x (hh.trans hx)

/-- The strip pass leaves no trailing whitespace. -/
lemma pyStrip_no_trailing (l : List Char) :
    (pyStrip l).reverse.dropWhile isPyWs = (pyStrip l).reverse := by
  have key : (pyStrip l).reverse = (l.dropWhile isPyWs).reverse.dropWhile isPyWs := by
    show ((((l.dropWhile isPyWs).reverse).dropWhile isPyWs).reverse).reverse = _
    rw [List.reverse_reverse]
  rw [key]
  apply dropWhile_eq_self_of_head
  intro x hx
  exact dropWhile_head_false isPyWs (l.dropWhile isPyWs).reverse x hx

/-- A newline triple inside the stripped text was already present before the
strip. -/
lemma exists_triple_of_pyStrip (m a b : List Char)
    (h : pyStrip m = a ++ '\n' :: '\n' :: '\n' :: b) :
    ∃ a2 b2, m = a2 ++ '\n' :: '\n' :: '\n' :: b2 := by
  obtain ⟨u, hu⟩ := List.dropWhile_suffix (l := m) isPyWs
  obtain ⟨v, hv⟩ := List.dropWhile_suffix (l := (m.dropWhile isPyWs).reverse) isPyWs
  refine ⟨u ++ a, b ++ v.reverse, ?_⟩
  have hm1 : m.dropWhile isPyWs = pyStrip m ++ v.reverse := by
    have h2 := congrArg List.reverse hv
    rw [List.reverse_append, List.reverse_reverse] at h2
    exact h2.symm
  rw [← hu, hm1, h]
  simp [List.append_assoc]

/-- The splitter yields at least one chunk on a non-empty input. -/
lemma chunksFrom_ne_nil (S O : Nat) (l : List Nat) (hl : l ≠ []) :
    chunksFrom S O l ≠ [] := by
  rw [chunksFrom]
  by_cases h : l.length ≤ S
  · rw [dif_pos h]
    rcases l with _ | ⟨a, t⟩
    · exact absurd rfl hl
    · simp
  · rw [dif_neg h]
    simp

/-- An input longer than the chunk size yields at least two chunks when the
overlap is smaller than the chunk size. -/
lemma chunksFrom_two_le (S O : Nat) (hO : O < S) (l : List Nat) (h : S < l.length) :
    2 ≤ (chunksFrom S O l).length := by
  rw [chunksFrom, dif_neg (by omega)]
  have hmax : max 1 (S - O) = S - O := by omega
  rw [hmax]
  simp only [List.length_cons]
  have hne : l.drop (S - O) ≠ [] := by
    intro hnil
    have := congrArg List.length hnil
    simp only [List.length_drop, List.length_nil] at this
    omega
  have hpos := List.length_pos.mpr (chunksFrom_ne_nil S O _ hne)
  omega

/-- `split_documents` on a single document is the chunk list of that
document, each chunk carrying the document's metadata. -/
lemma split_documents_single (d : TokenDoc) :
    split_documents [d] =
      (chunksFrom 8000 500 d.tokens).map fun c => (⟨c, d.source⟩ : TokenChunk) := by
  simp [split_documents]

/-- Indexing a mapped chunk list inside its range. -/
lemma getD_map_chunk (src : Option String) (cs : List (List Nat)) (i : Nat)
    (hi : i < cs.length) :
    ((cs.map fun c => (⟨c, src⟩ : TokenChunk)).getD i default) =
      ⟨cs.getD i [], src⟩ := by
  simp [List.getD_eq_getElem?_getD, List.getElem?_map, List.getElem?_eq_getElem hi]

/-! ## Claim theorems -/

/-- Claim C1. The build pipeline and the query service do NOT use one and the
same persisted store: the serialization formats agree (`"parquet"` both), but
for every working directory the path `create_vectorstore` persists to
(`.../sklearn_vectorstore.parquet`) differs from the path
`langgraph_query_tool` loads from (`.../sklear_vectorestore.parquet`). This
exhibits the code bug behind claim C1. -/
theorem c1_store_path_mismatch (cwd : String) :
    create_vectorstore_serialize = query_tool_serializer ∧
    create_vectorstore_persist_path cwd ≠ query_tool_persist_path cwd := by
  refine ⟨rfl, fun h => ?_⟩
  have hd := congrArg String.data h
  simp only [create_vectorstore_persist_path, query_tool_persist_path,
    String.data_append] at hd
  have := List.append_cancel_left hd
  exact absurd this (by decide)

/-- Claim C2. The resource-read operation does NOT open the file
`save_llm_full` writes: `PATH = Path(__file__)` is the `agent.py` file
itself, so `PATH / "llms_full.txt"` appends to the module file's path, and
for every directory the opened path differs from the archive path resolved
in that same directory. This exhibits the code bug behind claim C2. -/
theorem c2_resource_path_mismatch (d : String) :
    get_all_docs_path d = agent_PATH d ++ "/llms_full.txt" ∧
    get_all_docs_path d ≠ resolved_save_path d := by
  refine ⟨rfl, fun h => ?_⟩
  have hd := congrArg String.data h
  simp only [get_all_docs_path, agent_PATH, resolved_save_path,
    llms_full_filename, String.data_append, List.append_assoc] at hd
  have := List.append_cancel_left hd
  exact absurd this (by decide)

/-- Claim C3. For every failure of the file read, `get_all_langgraphp_docs`
returns (rather than raises) the string `"Error reading log file: "` followed
by the exception's message; in particular the result starts with
`"Error reading log file"`. -/
theorem c3_read_failure_returns_error_string (e : String) :
    get_all_langgraphp_docs (.error e) = "Error reading log file: " ++ e ∧
    ∃ t, (get_all_langgraphp_docs (.error e)).data =
      ("Error reading log file" : String).data ++ t := by
  refine ⟨rfl, ⟨(": " ++ e).data, ?_⟩⟩
  show ("Error reading log file: " ++ e).data = _
  simp only [String.data_append, ← List.append_assoc]
  congr 1

/-- Claim C7. For every HTML input whose designated main-content region
(`article.md-content__inner`) is absent, `bs4_extractor` returns the same
text as extracting the whole page's visible text with the same whitespace
normalization applied. -/
theorem c7_fallback_whole_page (doc : HtmlDoc) (h : doc.mainContent = none) :
    bs4_extractor doc = wholePageExtract doc := by
  simp [bs4_extractor, wholePageExtract, h]

/-- Witness for C7 at a concrete page with no main-content region. -/
theorem c7_fallback_whole_page_witness :
    bs4_extractor ⟨none, "  hello\n\n\n\nworld  "⟩ =
      wholePageExtract ⟨none, "  hello\n\n\n\nworld  "⟩ :=
  c7_fallback_whole_page ⟨none, "  hello\n\n\n\nworld  "⟩ rfl

/-- Claim C4. For every query, `langgraph_query_tool` performs the
vector-store lookup with `k = 3` on the invocation itself (the result is a
function of the current retriever response, with no state carried across
calls), formats each retrieved result as a numbered block containing that
result's text, concatenates the blocks with blank-line (`"\n\n"`)
separators, returns the concatenated string, and logs the count of
retrieved results. -/
theorem c4_query_tool_format (search : String → Nat → List Document) (query : String) :
    ∃ blocks : List String,
      (langgraph_query_tool search query).output = String.intercalate "\n\n" blocks ∧
      blocks.length = (search query 3).length ∧
      (∀ i, i < blocks.length →
        blocks.getD i "" =
          "=Document " ++ toString (i + 1) ++ " == \n" ++
            ((search query 3).getD i default).page_content) ∧
      (langgraph_query_tool search query).logged =
        "Retrieved " ++ toString (search query 3).length ++ " relevant documents" := by
  refine ⟨_, rfl, by simp [List.enum], ?_, rfl⟩
  intro i hi
  simp only [List.length_map, List.enum, List.enumFrom_length] at hi
  rw [getD_enum_map _ _ _ hi]

/-- Witness for C4 with a retriever returning one concrete document. -/
theorem c4_query_tool_format_witness :
    (langgraph_query_tool (fun _ _ => [⟨"LangGraph is a library", some "u"⟩])
        "what is langgraph?").output = "=Document 1 == \nLangGraph is a library" ∧
    (langgraph_query_tool (fun _ _ => [⟨"LangGraph is a library", some "u"⟩])
        "what is langgraph?").logged = "Retrieved 1 relevant documents" := by
  obtain ⟨blocks, h1, h2, h3, h4⟩ :=
    c4_query_tool_format (fun _ _ => [⟨"LangGraph is a library", some "u"⟩])
      "what is langgraph?"
  obtain ⟨a, ha⟩ := List.length_eq_one.mp (h2.trans rfl)
  subst ha
  have e0 : a = "=Document 1 == \nLangGraph is a library" := h3 0 (by simp)
  refine ⟨?_, ?_⟩
  · rw [h1, e0]; rfl
  · rw [h4]; rfl

/-- Claim C5. Archiving `N` documents with `save_llm_full` and then reading
the written file back yields a file that is the concatenation of exactly `N`
blocks, the `i`-th (0-based) consisting of the header `DOCUMENT i+1`, the
document's source URL, a `CONTENT:` marker, the full original content, and a
separator line of 80 `'='` characters followed by a blank line. -/
theorem c5_archive_roundtrip (fs : FileSystem) (docs : List Document) :
    ∃ blocks : List String,
      readFile (save_llm_full_run fs docs) llms_full_filename =
        some (String.join blocks) ∧
      blocks.length = docs.length ∧
      ∀ i, i < docs.length →
        blocks.getD i "" =
          "DOCUMENT " ++ toString (i + 1) ++ "\n" ++
          ("SOURCE: " ++ ((docs.getD i default).source.getD "Unknown url") ++ "\n") ++
          "CONTENT:\n" ++
          (docs.getD i default).page_content ++
          ("\n\n" ++ String.mk (List.replicate 80 '=') ++ "\n\n") := by
  refine ⟨docs.enum.map fun p => archiveWrites p.1 p.2, ?_, by simp [List.enum], ?_⟩
  · show some (save_llm_full docs) = _
    rw [save_llm_full_eq_join]
  · intro i hi
    rw [getD_enum_map _ _ _ hi]
    simp [archiveWrites, String.append_assoc]

/-- Witness for C5 at two concrete documents (one without a source URL). -/
theorem c5_archive_roundtrip_witness :
    readFile (save_llm_full_run (fun _ => none)
        [⟨"alpha", some "http://a"⟩, ⟨"beta", none⟩]) llms_full_filename =
      some ("DOCUMENT 1\nSOURCE: http://a\nCONTENT:\nalpha\n\n"
        ++ String.mk (List.replicate 80 '=') ++ "\n\n"
        ++ "DOCUMENT 2\nSOURCE: Unknown url\nCONTENT:\nbeta\n\n"
        ++ String.mk (List.replicate 80 '=') ++ "\n\n") := by
  obtain ⟨blocks, h1, h2, h3⟩ :=
    c5_archive_roundtrip (fun _ => none) [⟨"alpha", some "http://a"⟩, ⟨"beta", none⟩]
  obtain ⟨b0, b1, hb⟩ := List.length_eq_two.mp (h2.trans rfl)
  subst hb
  have e0 : b0 = "DOCUMENT 1\nSOURCE: http://a\nCONTENT:\nalpha\n\n"
      ++ String.mk (List.replicate 80 '=') ++ "\n\n" := by
    have := h3 0 (by decide)
    simpa [String.append_assoc] using this
  have e1 : b1 = "DOCUMENT 2\nSOURCE: Unknown url\nCONTENT:\nbeta\n\n"
      ++ String.mk (List.replicate 80 '=') ++ "\n\n" := by
    have := h3 1 (by decide)
    simpa [String.append_assoc] using this
  rw [h1, e0, e1]
  simp [String.join, String.append_assoc]

/-- Claim C8. For every HTML input, `bs4_extractor` returns a string
(totality is built into the embedding) with no leading or trailing
whitespace (`dropWhile` of Python whitespace is the identity on the result
and on its reversal), and no run of three or more consecutive newline
characters remains in it. -/
theorem c8_normalized_output (doc : HtmlDoc) :
    (bs4_extractor doc).data.dropWhile isPyWs = (bs4_extractor doc).data ∧
    (bs4_extractor doc).data.reverse.dropWhile isPyWs =
      (bs4_extractor doc).data.reverse ∧
    ¬ ∃ a b, (bs4_extractor doc).data = a ++ '\n' :: '\n' :: '\n' :: b := by
  refine ⟨pyStrip_no_leading _, pyStrip_no_trailing _, ?_⟩
  rintro ⟨a, b, h⟩
  obtain ⟨a2, b2, h2⟩ := exists_triple_of_pyStrip _ a b h
  exact pyCollapse_no_triple _ ⟨a2, b2, h2⟩

/-- Claim C9. `count_tokens` is deterministic (two calls with the same text
and model return the same integer), returns a non-negative integer, and
returns 0 on the empty string, for every tokenizer registry. -/
theorem c9_count_tokens (registry : String → List (List Char))
    (text model : String) :
    count_tokens registry text model = count_tokens registry text model ∧
    0 ≤ count_tokens registry text model ∧
    count_tokens registry "" model = 0 := by
  refine ⟨rfl, ?_, ?_⟩
  · show (0 : Int) ≤ ((greedyEncode _ _).length : Int)
    omega
  · show ((greedyEncode (tiktoken_get_encoding registry model)
      ("" : String).data).length : Int) = 0
    rw [show ("" : String).data = [] from rfl]
    simp [greedyEncode]

/-- Claim C6. For the chunking run of `split_documents` (size `S = 8000`
tokens, overlap `O = 500`, `O < S`): every produced chunk's token count is at
most 8000 (an out-of-range index yields the empty default chunk), and any
two consecutive chunks derived from the same source document carry that
document's metadata and overlap — the trailing 500 tokens of the first chunk
are the leading 500 tokens of the second. -/
theorem c6_chunk_size_and_overlap (docs : List TokenDoc) (d : TokenDoc) (i : Nat) :
    ((split_documents docs).getD i default).tokens.length ≤ 8000 ∧
    (i + 1 < (split_documents [d]).length →
      ((split_documents [d]).getD i default).source = d.source ∧
      ((split_documents [d]).getD (i + 1) default).source = d.source ∧
      ((split_documents [d]).getD i default).tokens.drop
          (((split_documents [d]).getD i default).tokens.length - 500)
        = ((split_documents [d]).getD (i + 1) default).tokens.take 500) := by
  constructor
  · by_cases hi : i < (split_documents docs).length
    · have hx : (split_documents docs).getD i default = (split_documents docs)[i] := by
        simp [List.getD_eq_getElem?_getD, List.getElem?_eq_getElem hi]
      rw [hx]
      have hmem : (split_documents docs)[i] ∈ split_documents docs :=
        List.getElem_mem hi
      simp only [split_documents, List.mem_flatMap] at hmem
      obtain ⟨d', _, hc⟩ := hmem
      obtain ⟨c, hcmem, hceq⟩ := List.mem_map.mp hc
      have := chunksFrom_sizes 8000 500 d'.tokens c hcmem
      simp only [split_documents]
      rw [← hceq]
      exact this
    · have hx : (split_documents docs).getD i default = default := by
        simp [List.getD_eq_getElem?_getD,
          List.getElem?_eq_none (Nat.le_of_not_lt hi)]
      rw [hx]
      show (List.length []) ≤ 8000
      simp
  · intro h
    rw [split_documents_single] at h ⊢
    have hi1 : i + 1 < (chunksFrom 8000 500 d.tokens).length := by
      simpa using h
    have hi0 : i < (chunksFrom 8000 500 d.tokens).length := by omega
    rw [getD_map_chunk _ _ _ hi0, getD_map_chunk _ _ _ hi1]
    exact ⟨rfl, rfl, chunksFrom_overlap 8000 500 (by omega) d.tokens i hi1⟩

/-- Witness for C6 at a concrete 8050-token document, which splits into a
full 8000-token chunk followed by a 550-token chunk. -/
theorem c6_chunk_size_and_overlap_witness :
    ((split_documents [⟨List.replicate 8050 0, some "http://a"⟩]).getD 0
        default).tokens.length ≤ 8000 ∧
    ((split_documents [⟨List.replicate 8050 0, some "http://a"⟩]).getD 0
        default).source = some "http://a" ∧
    ((split_documents [⟨List.replicate 8050 0, some "http://a"⟩]).getD 1
        default).source = some "http://a" ∧
    ((split_documents [⟨List.replicate 8050 0, some "http://a"⟩]).getD 0
          default).tokens.drop
        (((split_documents [⟨List.replicate 8050 0, some "http://a"⟩]).getD 0
            default).tokens.length - 500)
      = ((split_documents [⟨List.replicate 8050 0, some "http://a"⟩]).getD 1
          default).tokens.take 500 := by
  have h := c6_chunk_size_and_overlap [⟨List.replicate 8050 0, some "http://a"⟩]
    ⟨List.replicate 8050 0, some "http://a"⟩ 0
  have hlen : (0 : Nat) + 1 <
      (split_documents [⟨List.replicate 8050 0, some "http://a"⟩]).length := by
    rw [split_documents_single]
    simp only [List.length_map]
    have h2 := chunksFrom_two_le 8000 500 (by omega) (List.replicate 8050 0)
      (by rw [List.length_replicate]; omega)
    omega
  exact ⟨h.1, (h.2 hlen).1, (h.2 hlen).2.1, (h.2 hlen).2.2⟩

/-- Claim C10. For every query for which the underlying retriever returns an
empty result list, `langgraph_query_tool` returns the empty string (the
blank-line join of zero blocks) and the logged retrieved-document count
is 0. -/
theorem c10_empty_retrieval (search : String → Nat → List Document)
    (query : String) (h : search query 3 = []) :
    (langgraph_query_tool search query).output = "" ∧
    (langgraph_query_tool search query).logged = "Retrieved 0 relevant documents" := by
  simp only [langgraph_query_tool, h]
  exact ⟨rfl, rfl⟩

/-- Witness for C10 with a retriever that returns no documents. -/
theorem c10_empty_retrieval_witness :
    (langgraph_query_tool (fun _ _ => []) "what is langgraph?").output = "" ∧
    (langgraph_query_tool (fun _ _ => []) "what is langgraph?").logged =
      "Retrieved 0 relevant documents" :=
  c10_empty_retrieval (fun _ _ => []) "what is langgraph?" rfl

end PypiAgent
